import Mathlib

/-
Verification of the recipe-finder core: the TTL cache (src/lib/cache.ts) and
the hybrid filtered-meal resolution algorithm (src/lib/api.ts).  Time is a
Nat of milliseconds and is passed explicitly where the source reads
Date.now(); the heterogeneous cache value space is modelled by the inductive
JVal, whose jnull constructor plays the role of JavaScript null.
-/

/-- A meal summary as produced by the resolver: id, name, thumbnail and the
optional category/area recovered from the full record (types/meal.ts,
spec section 3). Identity is idMeal. -/
structure MealSummary where
  idMeal : String
  strMeal : String
  strMealThumb : String
  strCategory : Option String
  strArea : Option String
deriving DecidableEq, Repr

/-- Value domain of the heterogeneous cache: JavaScript null plus the value
shapes the application stores (strings, meal lists, numbers). -/
inductive JVal where
  | jnull
  | jstr (s : String)
  | jmeals (ms : List MealSummary)
  | jnat (n : Nat)
deriving DecidableEq, Repr

/-- Cache entry with data and expiration time (cache.ts, CacheEntry). -/
structure CacheEntry where
  data : JVal
  expiresAt : Nat
deriving DecidableEq, Repr

/-- The in-memory store backing the Cache class: a map from string keys to
entries, modelled extensionally. -/
def Cache := String → Option CacheEntry

/-- The cache as freshly constructed: empty. -/
def Cache.empty : Cache := fun _ => none

/-- Cache.get (cache.ts lines 23-37): returns null if the key is absent or the
entry has expired; an expired entry is deleted as a side effect, so the result
is the returned value together with the possibly-updated store. -/
def Cache.get (c : Cache) (key : String) (now : Nat) : JVal × Cache :=
  match c key with
  | none => (JVal.jnull, c)
  | some entry =>
    if now > entry.expiresAt then
      (JVal.jnull, fun k => if k = key then none else c k)
    else
      (entry.data, c)

/-- Cache.set (cache.ts lines 45-48): stores the entry unconditionally with
expiresAt = now + ttl.  The source's default ttl is 5 minutes; callers in
scope always pass a ttl, which is explicit here. -/
def Cache.set (c : Cache) (key : String) (data : JVal) (ttl : Nat) (now : Nat) : Cache :=
  fun k => if k = key then some { data := data, expiresAt := now + ttl } else c k

/-- Cache.has (cache.ts lines 53-55): get(key) !== null, with get's
eviction side effect. -/
def Cache.has (c : Cache) (key : String) (now : Nat) : Bool × Cache :=
  let r := Cache.get c key now
  (r.1 != JVal.jnull, r.2)

/-- Cache.delete (cache.ts lines 60-62): removes the key unconditionally and
reports whether anything was present. -/
def Cache.del (c : Cache) (key : String) : Bool × Cache :=
  ((c key).isSome, fun k => if k = key then none else c k)

/-- withCache (cache.ts lines 191-209): compute-if-absent.  The fetcher is a
single asynchronous producer run, modelled by its outcome; the trailing Nat
counts how many times the fetcher was invoked by this call (0 on a cache hit,
1 otherwise).  On producer failure nothing is stored and the failure is
returned unchanged. -/
def withCache (c : Cache) (key : String) (fetcher : Except String JVal)
    (ttl : Nat) (now : Nat) : Except String JVal × Cache × Nat :=
  let r := Cache.get c key now
  if r.1 ≠ JVal.jnull then
    (Except.ok r.1, r.2, 0)
  else
    match fetcher with
    | Except.error e => (Except.error e, r.2, 1)
    | Except.ok v => (Except.ok v, Cache.set r.2 key v ttl now, 1)

/-- CACHE_TTL.SHORT (cache.ts line 107): 2 minutes, for search results. -/
def CACHE_TTL.SHORT : Nat := 2 * 60 * 1000

/-- CACHE_TTL.MEDIUM (cache.ts line 108): 5 minutes, for filtered results. -/
def CACHE_TTL.MEDIUM : Nat := 5 * 60 * 1000

/-- CACHE_TTL.LONG (cache.ts line 109): 30 minutes, for categories, areas and
meal details. -/
def CACHE_TTL.LONG : Nat := 30 * 60 * 1000

/-- C6 counterexample: set(k, v, 0) at time 5 followed by get(k) at the same
instant 5 returns the stored value, not absent — the entry is visible while
now ≤ expiresAt, and the claim says a same-instant get already returns
absent. -/
theorem c6_ttl_zero_counterexample :
    (Cache.get (Cache.set Cache.empty "k" (JVal.jstr "v") 0 5) "k" 5).1 = JVal.jstr "v" ∧
    JVal.jstr "v" ≠ JVal.jnull := by
  exact ⟨rfl, by decide⟩

/-- C6 (amended): after set(k, v, 0) at time t, a get at any strictly later
time returns absent and evicts the entry; only the same-instant read still
sees the value. -/
theorem c6_ttl_zero_expires_next_read (c : Cache) (k : String) (v : JVal) (t t2 : Nat)
    (h : t < t2) :
    (Cache.get (Cache.set c k v 0 t) k t2).1 = JVal.jnull ∧
    (Cache.get (Cache.set c k v 0 t) k t2).2 k = none := by
  simp [Cache.get, Cache.set, h]

/-- C6 witness: the amended theorem at a concrete instance (set at 3, read
at 4). -/
theorem c6_ttl_zero_expires_next_read_witness :
    (Cache.get (Cache.set Cache.empty "k" (JVal.jstr "x") 0 3) "k" 4).1 = JVal.jnull ∧
    (Cache.get (Cache.set Cache.empty "k" (JVal.jstr "x") 0 3) "k" 4).2 "k" = none :=
  c6_ttl_zero_expires_next_read Cache.empty "k" (JVal.jstr "x") 3 4 (by decide)

/-- C10: a stored null is indistinguishable from absence at the public
interface: after set(k, null, ttl) at time t, get(k) returns null and has(k)
returns false at every read time, and withCache on that state invokes its
producer (invocation count 1) whatever the fetcher — so a producer whose
successful result is null is re-invoked on every call. -/
theorem c10_null_indistinguishable_from_absent (c : Cache) (k : String)
    (ttl t t2 ttl2 : Nat) (f : Except String JVal) :
    (Cache.get (Cache.set c k JVal.jnull ttl t) k t2).1 = JVal.jnull ∧
    (Cache.has (Cache.set c k JVal.jnull ttl t) k t2).1 = false ∧
    (withCache (Cache.set c k JVal.jnull ttl t) k f ttl2 t2).2.2 = 1 := by
  have hget : (Cache.get (Cache.set c k JVal.jnull ttl t) k t2).1 = JVal.jnull := by
    simp [Cache.get, Cache.set]
    split <;> rfl
  refine ⟨hget, ?_, ?_⟩
  · simp [Cache.has, hget]
  · simp only [withCache, hget, ne_eq, not_true_eq_false, if_neg, not_false_eq_true]
    cases f <;> rfl

/-- A read of a key just written, at or before its expiration instant, returns
the stored value and leaves the store unchanged. -/
theorem Cache.get_set_live (c : Cache) (k : String) (v : JVal) (ttl now t2 : Nat)
    (h : t2 ≤ now + ttl) :
    Cache.get (Cache.set c k v ttl now) k t2 = (v, Cache.set c k v ttl now) := by
  have h2 : ¬ t2 > now + ttl := Nat.not_lt.mpr h
  simp [Cache.get, Cache.set, h2]

/-- C3 counterexample: with a producer whose resolved value is null (as in
getMealById for a nonexistent id), two back-to-back withCache calls on a fresh
cache invoke the producer twice, not exactly once — the cached null is
indistinguishable from a miss. -/
theorem c3_null_fetcher_counterexample :
    (withCache Cache.empty "k" (Except.ok JVal.jnull) 5 0).2.2 +
      (withCache (withCache Cache.empty "k" (Except.ok JVal.jnull) 5 0).2.1 "k"
        (Except.ok JVal.jnull) 5 0).2.2 = 2 := by
  decide

/-- C3 (amended): starting from a state with no live non-null value for k,
calling withCache twice within ttl with a producer resolving to a NON-null
value invokes the producer exactly once (on the first call only) and the
second call returns the identical value. -/
theorem c3_withCache_single_fetch (c : Cache) (k : String) (v : JVal)
    (ttl t1 t2 : Nat) (h0 : (Cache.get c k t1).1 = JVal.jnull)
    (hv : v ≠ JVal.jnull) (httl : 0 < ttl) (h12 : t1 ≤ t2) (h2 : t2 ≤ t1 + ttl) :
    (withCache c k (Except.ok v) ttl t1).2.2 = 1 ∧
    (withCache (withCache c k (Except.ok v) ttl t1).2.1 k (Except.ok v) ttl t2).2.2 = 0 ∧
    (withCache (withCache c k (Except.ok v) ttl t1).2.1 k (Except.ok v) ttl t2).1 =
      (withCache c k (Except.ok v) ttl t1).1 ∧
    (withCache c k (Except.ok v) ttl t1).1 = Except.ok v := by
  have hmiss : withCache c k (Except.ok v) ttl t1 =
      (Except.ok v, Cache.set (Cache.get c k t1).2 k v ttl t1, 1) := by
    simp [withCache, h0]
  have hlive := Cache.get_set_live (Cache.get c k t1).2 k v ttl t1 t2 h2
  have hhit : withCache (Cache.set (Cache.get c k t1).2 k v ttl t1) k
      (Except.ok v) ttl t2 =
      (Except.ok v, Cache.set (Cache.get c k t1).2 k v ttl t1, 0) := by
    simp [withCache, hlive, hv]
  refine ⟨?_, ?_, ?_, ?_⟩ <;> simp [hmiss, hhit]

/-- C3 witness: the amended single-fetch theorem at a fresh cache, key "k",
value "x", ttl 5, call times 0 and 3. -/
theorem c3_withCache_single_fetch_witness :
    (withCache Cache.empty "k" (Except.ok (JVal.jstr "x")) 5 0).2.2 = 1 ∧
    (withCache (withCache Cache.empty "k" (Except.ok (JVal.jstr "x")) 5 0).2.1 "k"
      (Except.ok (JVal.jstr "x")) 5 3).2.2 = 0 ∧
    (withCache (withCache Cache.empty "k" (Except.ok (JVal.jstr "x")) 5 0).2.1 "k"
      (Except.ok (JVal.jstr "x")) 5 3).1 =
      (withCache Cache.empty "k" (Except.ok (JVal.jstr "x")) 5 0).1 ∧
    (withCache Cache.empty "k" (Except.ok (JVal.jstr "x")) 5 0).1 =
      Except.ok (JVal.jstr "x") :=
  c3_withCache_single_fetch Cache.empty "k" (JVal.jstr "x") 5 0 3 rfl (by decide)
    (by decide) (by decide) (by decide)

/-- C4 counterexample: a failing producer does not leave the cache state
unchanged in every case — the initial read evicts an already-expired entry for
k as a side effect: before the failing call, k physically holds an (expired)
entry; afterwards it holds none. -/
theorem c4_state_change_counterexample :
    (Cache.set Cache.empty "k" (JVal.jstr "old") 0 0) "k" =
      some { data := JVal.jstr "old", expiresAt := 0 } ∧
    (withCache (Cache.set Cache.empty "k" (JVal.jstr "old") 0 0) "k"
      (Except.error "boom") 5 1).2.1 "k" = none := by
  exact ⟨rfl, rfl⟩

/-- C4 (amended): with no live non-null value for k, a failing producer's
error propagates to the caller unchanged, the producer was invoked, no entry
is written for k — the resulting cache is exactly what the initial read left,
which at most evicts an already-expired (logically absent) entry for k — and a
subsequent withCache call at any later time invokes its producer again. -/
theorem c4_failure_isolation (c : Cache) (k e : String) (ttl t t2 ttl2 : Nat)
    (f : Except String JVal) (h0 : (Cache.get c k t).1 = JVal.jnull) (ht2 : t ≤ t2) :
    (withCache c k (Except.error e) ttl t).1 = Except.error e ∧
    (withCache c k (Except.error e) ttl t).2.1 = (Cache.get c k t).2 ∧
    (withCache c k (Except.error e) ttl t).2.2 = 1 ∧
    (withCache (withCache c k (Except.error e) ttl t).2.1 k f ttl2 t2).2.2 = 1 := by
  have herr : withCache c k (Except.error e) ttl t =
      (Except.error e, (Cache.get c k t).2, 1) := by
    simp [withCache, h0]
  have hpost : (Cache.get ((Cache.get c k t).2) k t2).1 = JVal.jnull := by
    cases hc : c k with
    | none =>
      have h1 : Cache.get c k t = (JVal.jnull, c) := by simp [Cache.get, hc]
      rw [h1]
      simp [Cache.get, hc]
    | some entry =>
      by_cases hexp : t > entry.expiresAt
      · have h1 : Cache.get c k t =
            (JVal.jnull, fun k2 => if k2 = k then none else c k2) := by
          simp [Cache.get, hc, hexp]
        rw [h1]
        simp [Cache.get]
      · have h1 : Cache.get c k t = (entry.data, c) := by
          simp [Cache.get, hc, hexp]
        have hdata : entry.data = JVal.jnull := by rw [h1] at h0; exact h0
        rw [h1]
        simp only [Cache.get, hc]
        split <;> simp [hdata]
  refine ⟨by simp [herr], by simp [herr], by simp [herr], ?_⟩
  cases f <;> simp [withCache, h0, hpost]

/-- C4 witness: the amended failure-isolation theorem at a cache whose key "k"
holds an entry already expired at call time 1, ttl 5, error "boom", and a
follow-up call at time 2 with a fresh producer. -/
theorem c4_failure_isolation_witness :
    (withCache (Cache.set Cache.empty "k" (JVal.jstr "old") 0 0) "k"
      (Except.error "boom") 5 1).1 = Except.error "boom" ∧
    (withCache (Cache.set Cache.empty "k" (JVal.jstr "old") 0 0) "k"
      (Except.error "boom") 5 1).2.1 =
      (Cache.get (Cache.set Cache.empty "k" (JVal.jstr "old") 0 0) "k" 1).2 ∧
    (withCache (Cache.set Cache.empty "k" (JVal.jstr "old") 0 0) "k"
      (Except.error "boom") 5 1).2.2 = 1 ∧
    (withCache (withCache (Cache.set Cache.empty "k" (JVal.jstr "old") 0 0) "k"
      (Except.error "boom") 5 1).2.1 "k" (Except.ok (JVal.jstr "new")) 7 2).2.2 = 1 :=
  c4_failure_isolation (Cache.set Cache.empty "k" (JVal.jstr "old") 0 0) "k" "boom"
    5 1 2 7 (Except.ok (JVal.jstr "new")) rfl (by decide)

/-- A filter request ({ searchQuery?, categories, areas }); searchQuery is
optional, mirroring the TypeScript optional field. -/
structure FilterOptions where
  searchQuery : Option String
  categories : List String
  areas : List String
deriving DecidableEq, Repr

/-- Lexicographic code-unit comparison of character lists, as JavaScript's
default string comparison performs. -/
def charListLe : List Char → List Char → Bool
  | [], _ => true
  | _ :: _, [] => false
  | a :: as, b :: bs =>
    if a.toNat < b.toNat then true
    else if b.toNat < a.toNat then false
    else charListLe as bs

/-- Lexicographic string comparison over code units. -/
def strLe (a b : String) : Bool := charListLe a.data b.data

/-- Insert a string into an already sorted list, keeping order. -/
def insertSorted (s : String) : List String → List String
  | [] => [s]
  | t :: ts => if strLe s t then s :: t :: ts else t :: insertSorted s ts

/-- The sorted copy produced by JavaScript Array.prototype.sort with the
default lexicographic comparator (insertion sort; stable). -/
def jsSort (l : List String) : List String := l.foldr insertSorted []

/-- JavaScript truthiness of an optional string: undefined and the empty
string are falsy. -/
def jsTruthy : Option String → Bool
  | none => false
  | some s => s != ""

/-- CacheKeys.filteredMeals (cache.ts lines 122-132).  Array.prototype.sort
sorts the arrays IN PLACE, so evaluating the key also mutates the caller's
FilterOptions; the result is the generated key together with the state of the
caller's options object after the call. -/
def CacheKeys.filteredMeals (o : FilterOptions) : String × FilterOptions :=
  let parts := ["filtered"]
  let parts := if jsTruthy o.searchQuery then parts ++ ["q:" ++ o.searchQuery.getD ""]
    else parts
  let sortedCats := jsSort o.categories
  let parts := if o.categories.length > 0 then
    parts ++ ["c:" ++ String.intercalate "," sortedCats] else parts
  let sortedAreas := jsSort o.areas
  let parts := if o.areas.length > 0 then
    parts ++ ["a:" ++ String.intercalate "," sortedAreas] else parts
  (String.intercalate "|" parts,
    { o with categories := sortedCats, areas := sortedAreas })

/-- One upstream API endpoint invocation made during a resolution. -/
inductive UpstreamCall where
  | nameQuery (q : String)
  | categoryFilter (c : String)
  | areaFilter (a : String)
deriving DecidableEq, Repr

/-- The upstream API as seen by the resolver, already normalized: the name
search returns summary records, and the per-category / per-area fetches return
the enriched summaries that filterByCategory / filterByArea produce after their
per-id lookups (api.ts lines 127-194). -/
structure Env where
  searchByName : String → List MealSummary
  fetchByCategory : String → List MealSummary
  fetchByArea : String → List MealSummary

/-- JavaScript String.prototype.trim: drop whitespace from both ends,
expressed over the character list. -/
def jsTrim (s : String) : String :=
  String.mk (((s.data.dropWhile Char.isWhitespace).reverse.dropWhile
    Char.isWhitespace).reverse)

/-- searchMealsByName (api.ts lines 61-74): an empty-after-trim query returns
the empty list without touching the upstream; otherwise the upstream name
search runs (through the SHORT-ttl cache, transparent on a cold cache). -/
def searchMealsByName (env : Env) (query : String) :
    List MealSummary × List UpstreamCall :=
  if jsTrim query = "" then ([], [])
  else (env.searchByName query, [UpstreamCall.nameQuery query])

/-- The category side of the client-side conjunctive filter in the search
branch (api.ts lines 233-234): pass when no category is selected or the meal's
category (empty string when absent) is among the selected ones. -/
def categoryMatch (categories : List String) (m : MealSummary) : Bool :=
  categories.length == 0 || categories.contains (m.strCategory.getD "")

/-- The area side of the client-side conjunctive filter in the search branch
(api.ts lines 235-236). -/
def areaMatch (areas : List String) (m : MealSummary) : Bool :=
  areas.length == 0 || areas.contains (m.strArea.getD "")

/-- One uniqueMeals.set(meal.idMeal, meal) step of the duplicate-removal Map
(api.ts lines 252-255): a JavaScript Map keeps the insertion position of an
existing key but overwrites its value. -/
def dedupInsert (acc : List MealSummary) (m : MealSummary) : List MealSummary :=
  if acc.any (fun x => x.idMeal == m.idMeal) then
    acc.map (fun x => if x.idMeal == m.idMeal then m else x)
  else
    acc ++ [m]

/-- The whole duplicate-removal pass: feed every meal through the Map, then
read the values back in insertion order (Array.from(uniqueMeals.values())). -/
def dedupById (l : List MealSummary) : List MealSummary :=
  l.foldl dedupInsert []

/-- performFilteredSearch (api.ts lines 221-277): search branch with
client-side conjunctive filtering when the query is truthy, else per-category
fan-out with dedup and optional client-side area filter, else per-area fan-out
with dedup, else empty.  Alongside the meal list it reports the upstream
endpoints contacted (cold cache: every wrapped fetch reaches upstream). -/
def performFilteredSearch (env : Env) (categories areas : List String)
    (searchQuery : Option String) : List MealSummary × List UpstreamCall :=
  if jsTruthy searchQuery then
    let sr := searchMealsByName env (searchQuery.getD "")
    (sr.1.filter (fun m => categoryMatch categories m && areaMatch areas m), sr.2)
  else if categories.length > 0 then
    let results := dedupById (categories.map env.fetchByCategory).flatten
    let results := if areas.length > 0 then
      results.filter (fun m => areas.contains (m.strArea.getD "")) else results
    (results, categories.map UpstreamCall.categoryFilter)
  else if areas.length > 0 then
    (dedupById (areas.map env.fetchByArea).flatten, areas.map UpstreamCall.areaFilter)
  else
    ([], [])

/-- getFilteredMeals (api.ts lines 203-216): memoize performFilteredSearch
under the combined key with CACHE_TTL.MEDIUM.  CacheKeys.filteredMeals runs
first (as the argument of withCache) and sorts the caller's arrays in place,
so the fetcher closure sees the sorted arrays. -/
def getFilteredMeals (c : Cache) (env : Env) (now : Nat) (o : FilterOptions) :
    Except String JVal × Cache × List UpstreamCall :=
  let km := CacheKeys.filteredMeals o
  let pfs := performFilteredSearch env km.2.categories km.2.areas km.2.searchQuery
  let w := withCache c km.1 (Except.ok (JVal.jmeals pfs.1)) CACHE_TTL.MEDIUM now
  (w.1, w.2.1, if w.2.2 == 0 then [] else pfs.2)

/-- A small concrete upstream environment used by the witnesses: a fixed
name-search response and per-category responses that share meal id 3. -/
def wEnv : Env :=
  { searchByName := fun _ =>
      [{ idMeal := "1", strMeal := "Pasta One", strMealThumb := "t1",
         strCategory := some "Chicken", strArea := some "Italian" },
       { idMeal := "2", strMeal := "Pasta Two", strMealThumb := "t2",
         strCategory := some "Beef", strArea := some "Mexican" }],
    fetchByCategory := fun c =>
      if c = "Beef" then
        [{ idMeal := "3", strMeal := "Shared", strMealThumb := "t3",
           strCategory := some "Beef", strArea := some "British" },
         { idMeal := "4", strMeal := "Only Beef", strMealThumb := "t4",
           strCategory := some "Beef", strArea := some "French" }]
      else
        [{ idMeal := "3", strMeal := "Shared", strMealThumb := "t3",
           strCategory := some "Beef", strArea := some "British" },
         { idMeal := "5", strMeal := "Only Chicken", strMealThumb := "t5",
           strCategory := some "Chicken", strArea := some "Thai" }],
    fetchByArea := fun _ => [] }

/-- C5: with no categories, no areas, and a search query that is absent, empty
or whitespace-only, the resolver returns the empty list and contacts no
upstream endpoint. -/
theorem c5_empty_filter_short_circuit (env : Env) (searchQuery : Option String)
    (h : jsTrim (searchQuery.getD "") = "") :
    performFilteredSearch env [] [] searchQuery = ([], []) := by
  cases searchQuery with
  | none => rfl
  | some s =>
    by_cases hs : s = ""
    · subst hs; rfl
    · have hb : jsTruthy (some s) = true := by simp [jsTruthy, hs]
      have ht : jsTrim s = "" := h
      simp [performFilteredSearch, hb, searchMealsByName, ht]

/-- C5 witness: the short-circuit theorem at a whitespace-only query against
the concrete environment. -/
theorem c5_empty_filter_short_circuit_witness :
    performFilteredSearch wEnv [] [] (some "  ") = ([], []) :=
  c5_empty_filter_short_circuit wEnv (some "  ") (by decide)

/-- C8 (code-bug evidence): generating the combined cache key sorts the
caller's arrays in place — for categories ["Chicken","Beef"] the caller's
array afterwards is ["Beef","Chicken"], no longer what it was before the
call, contradicting the never-mutated filter-request contract. -/
theorem c8_filter_request_mutated :
    (CacheKeys.filteredMeals ⟨none, ["Chicken", "Beef"], []⟩).1 =
      "filtered|c:Beef,Chicken" ∧
    (CacheKeys.filteredMeals ⟨none, ["Chicken", "Beef"], []⟩).2.categories =
      ["Beef", "Chicken"] ∧
    (CacheKeys.filteredMeals ⟨none, ["Chicken", "Beef"], []⟩).2.categories ≠
      ["Chicken", "Beef"] := by
  decide

/-- C9 counterexample: resolving with category Beef on a cold cache stores the
combined-resolution entry expiring at now + CACHE_TTL.MEDIUM, and MEDIUM is
not the LONG tier the claim names for that entry. -/
theorem c9_medium_not_long_counterexample :
    ((getFilteredMeals Cache.empty wEnv 0 ⟨none, ["Beef"], []⟩).2.1
      "filtered|c:Beef").map (fun e => e.expiresAt) = some CACHE_TTL.MEDIUM ∧
    CACHE_TTL.MEDIUM ≠ CACHE_TTL.LONG := by
  constructor
  · rfl
  · decide

/-- C9 (amended): the combined-resolution cache entry written by
getFilteredMeals is stored with the MEDIUM tier — the tier of the per-category
and per-area filter results, not of the LONG reference data — and the tier
durations satisfy SHORT ≤ MEDIUM ≤ LONG. -/
theorem c9_combined_entry_medium_tier (env : Env) (now : Nat) (o : FilterOptions) :
    (getFilteredMeals Cache.empty env now o).2.1 (CacheKeys.filteredMeals o).1 =
      some { data := JVal.jmeals (performFilteredSearch env (jsSort o.categories)
          (jsSort o.areas) o.searchQuery).1, expiresAt := now + CACHE_TTL.MEDIUM } ∧
    CACHE_TTL.SHORT ≤ CACHE_TTL.MEDIUM ∧ CACHE_TTL.MEDIUM ≤ CACHE_TTL.LONG := by
  refine ⟨?_, by decide, by decide⟩
  have hempty : withCache Cache.empty (CacheKeys.filteredMeals o).1
      (Except.ok (JVal.jmeals (performFilteredSearch env
        (jsSort o.categories) (jsSort o.areas) o.searchQuery).1)) CACHE_TTL.MEDIUM now =
      (Except.ok (JVal.jmeals (performFilteredSearch env
        (jsSort o.categories) (jsSort o.areas) o.searchQuery).1),
       Cache.set Cache.empty (CacheKeys.filteredMeals o).1
        (JVal.jmeals (performFilteredSearch env
          (jsSort o.categories) (jsSort o.areas) o.searchQuery).1)
        CACHE_TTL.MEDIUM now, 1) := by
    have h0 : Cache.get Cache.empty (CacheKeys.filteredMeals o).1 now =
        (JVal.jnull, Cache.empty) := rfl
    simp [withCache, h0]
  have hcat : (CacheKeys.filteredMeals o).2.categories = jsSort o.categories := rfl
  have harea : (CacheKeys.filteredMeals o).2.areas = jsSort o.areas := rfl
  have hq : (CacheKeys.filteredMeals o).2.searchQuery = o.searchQuery := rfl
  simp only [getFilteredMeals, hcat, harea, hq, hempty, Cache.set]
  simp

/-- C2: with a search query non-empty after trimming, the resolver contacts
exactly the one upstream name-search endpoint (no category-filter or
area-filter call) and keeps a search result if and only if no category is
selected or the meal's category is among the selected ones, and no area is
selected or the meal's area is among the selected ones. -/
theorem c2_search_precedence (env : Env) (categories areas : List String)
    (q : String) (m : MealSummary) (h : jsTrim q ≠ "") :
    (performFilteredSearch env categories areas (some q)).2 =
      [UpstreamCall.nameQuery q] ∧
    (m ∈ (performFilteredSearch env categories areas (some q)).1 ↔
      m ∈ env.searchByName q ∧
        (categories = [] ∨ m.strCategory.getD "" ∈ categories) ∧
        (areas = [] ∨ m.strArea.getD "" ∈ areas)) := by
  have hq : q ≠ "" := by
    intro hq0
    exact h (by rw [hq0]; rfl)
  have hb : jsTruthy (some q) = true := by simp [jsTruthy, hq]
  have hsm : searchMealsByName env q =
      (env.searchByName q, [UpstreamCall.nameQuery q]) := by
    simp [searchMealsByName, h]
  constructor
  · simp [performFilteredSearch, hb, hsm]
  · simp [performFilteredSearch, hb, hsm, List.mem_filter, categoryMatch, areaMatch,
      List.length_eq_zero, and_assoc]

/-- C2 witness: the search-precedence theorem at query "pasta" with category
filter ["Chicken"] against the concrete environment, probing the meal with
id 1. -/
theorem c2_search_precedence_witness :
    (performFilteredSearch wEnv ["Chicken"] [] (some "pasta")).2 =
      [UpstreamCall.nameQuery "pasta"] ∧
    ((⟨"1", "Pasta One", "t1", some "Chicken", some "Italian"⟩ : MealSummary) ∈
        (performFilteredSearch wEnv ["Chicken"] [] (some "pasta")).1 ↔
      (⟨"1", "Pasta One", "t1", some "Chicken", some "Italian"⟩ : MealSummary) ∈
          wEnv.searchByName "pasta" ∧
        (["Chicken"] = ([] : List String) ∨
          (⟨"1", "Pasta One", "t1", some "Chicken", some "Italian"⟩ :
            MealSummary).strCategory.getD "" ∈ ["Chicken"]) ∧
        (([] : List String) = [] ∨
          (⟨"1", "Pasta One", "t1", some "Chicken", some "Italian"⟩ :
            MealSummary).strArea.getD "" ∈ ([] : List String))) :=
  c2_search_precedence wEnv ["Chicken"] [] "pasta"
    ⟨"1", "Pasta One", "t1", some "Chicken", some "Italian"⟩ (by decide)

/-- The ids of the Map after one insertion: unchanged when the id was already
present (the value is overwritten in place), extended by the new id
otherwise. -/
theorem ids_dedupInsert (acc : List MealSummary) (m : MealSummary) :
    (dedupInsert acc m).map (fun x => x.idMeal) =
      if acc.any (fun x => x.idMeal == m.idMeal) then
        acc.map (fun x => x.idMeal)
      else
        acc.map (fun x => x.idMeal) ++ [m.idMeal] := by
  unfold dedupInsert
  split
  case isTrue h =>
    rw [List.map_map]
    apply List.map_congr_left
    intro x hx
    by_cases hid : x.idMeal == m.idMeal
    · simp only [Function.comp_apply, hid, if_true]
      exact (beq_iff_eq.mp hid).symm
    · simp only [Function.comp_apply, hid, Bool.false_eq_true, if_false]
  case isFalse h => simp

/-- Feeding any list into the Map keeps the ids pairwise distinct. -/
theorem nodup_ids_foldl_dedupInsert (l : List MealSummary) :
    ∀ acc : List MealSummary, (acc.map (fun x => x.idMeal)).Nodup →
      ((l.foldl dedupInsert acc).map (fun x => x.idMeal)).Nodup := by
  induction l with
  | nil => intro acc h; simpa using h
  | cons m rest ih =>
    intro acc h
    rw [List.foldl_cons]
    apply ih
    rw [ids_dedupInsert]
    split
    · exact h
    case isFalse hany =>
      have hnot : m.idMeal ∉ acc.map (fun x => x.idMeal) := by
        intro hmem
        rw [List.mem_map] at hmem
        obtain ⟨x, hx, hxid⟩ := hmem
        exact hany (List.any_eq_true.mpr ⟨x, hx, by simp [hxid]⟩)
      refine List.Nodup.append h (List.nodup_singleton _) ?_
      intro a ha hb
      rw [List.mem_singleton] at hb
      exact hnot (hb ▸ ha)

/-- The output of the duplicate-removal pass has pairwise distinct ids. -/
theorem nodup_ids_dedupById (l : List MealSummary) :
    ((dedupById l).map (fun x => x.idMeal)).Nodup :=
  nodup_ids_foldl_dedupInsert l [] (by simp)

/-- Filtering cannot reintroduce duplicate ids. -/
theorem nodup_ids_filter (p : MealSummary → Bool) (l : List MealSummary)
    (h : (l.map (fun x => x.idMeal)).Nodup) :
    ((l.filter p).map (fun x => x.idMeal)).Nodup :=
  List.Nodup.sublist (List.Sublist.map _ (List.filter_sublist l)) h

/-- C1: whatever filter request is resolved, the resolver's output contains no
two entries with the same id, assuming only that each single upstream search
response is itself free of duplicate ids (the per-category and per-area
branches need no assumption at all — overlapping fan-out responses are merged
through the dedup Map). -/
theorem c1_resolver_output_nodup (env : Env) (categories areas : List String)
    (searchQuery : Option String)
    (hs : ∀ q, ((env.searchByName q).map (fun x => x.idMeal)).Nodup) :
    (((performFilteredSearch env categories areas searchQuery).1).map
      (fun x => x.idMeal)).Nodup := by
  unfold performFilteredSearch
  by_cases hb : jsTruthy searchQuery = true
  · simp only [hb, if_true]
    unfold searchMealsByName
    by_cases ht : jsTrim (searchQuery.getD "") = ""
    · simp [ht]
    · simp only [ht, if_false]
      exact nodup_ids_filter _ _ (hs _)
  · simp only [Bool.not_eq_true] at hb
    simp only [hb, Bool.false_eq_true, if_false]
    by_cases hc : categories.length > 0
    · simp only [hc, if_true]
      split
      · exact nodup_ids_filter _ _ (nodup_ids_dedupById _)
      · exact nodup_ids_dedupById _
    · simp only [hc, if_false]
      by_cases ha : areas.length > 0
      · simp only [ha, if_true]
        exact nodup_ids_dedupById _
      · simp only [ha, if_false]
        simp

/-- C1 witness: the dedup invariant at categories Beef and Chicken, whose
concrete upstream responses share the meal with id 3. -/
theorem c1_resolver_output_nodup_witness :
    (((performFilteredSearch wEnv ["Beef", "Chicken"] [] none).1).map
      (fun x => x.idMeal)).Nodup :=
  c1_resolver_output_nodup wEnv ["Beef", "Chicken"] [] none
    (by intro q; simp only [wEnv]; decide)

/-- Modelled from the spec: first-occurrence-wins deduplication by id (the
spec's description of the dedup step), accumulating the ids already kept. -/
def firstWinsAux (seen : List String) : List MealSummary → List MealSummary
  | [] => []
  | m :: rest =>
    if m.idMeal ∈ seen then firstWinsAux seen rest
    else m :: firstWinsAux (m.idMeal :: seen) rest

/-- Modelled from the spec: deduplicate keeping the first occurrence of each
id, field values untouched. -/
def firstWinsDedup (l : List MealSummary) : List MealSummary := firstWinsAux [] l

/-- C7 counterexample: when two concatenated entries share an id but differ in
their fields, the Map-based dedup retains the LAST occurrence's record (placed
at the first occurrence's position), not the first occurrence's record as the
claim states. -/
theorem c7_last_value_counterexample :
    dedupById [⟨"1", "A", "tA", none, none⟩, ⟨"1", "B", "tB", none, none⟩] =
      [⟨"1", "B", "tB", none, none⟩] ∧
    (⟨"1", "B", "tB", none, none⟩ : MealSummary) ≠ ⟨"1", "A", "tA", none, none⟩ := by
  decide

/-- Running the Map-based dedup from an accumulator agrees with the
first-occurrence-wins pass whenever all entries sharing an id are equal
records; seen mirrors the ids of the accumulator. -/
theorem foldl_dedupInsert_firstWins (l : List MealSummary) :
    ∀ (acc : List MealSummary) (seen : List String),
      (∀ i, i ∈ seen ↔ i ∈ acc.map (fun x => x.idMeal)) →
      (∀ a, (a ∈ acc ∨ a ∈ l) → ∀ b, (b ∈ acc ∨ b ∈ l) →
        a.idMeal = b.idMeal → a = b) →
      l.foldl dedupInsert acc = acc ++ firstWinsAux seen l := by
  induction l with
  | nil => intro acc seen hseen hall; simp [firstWinsAux]
  | cons m rest ih =>
    intro acc seen hseen hall
    by_cases hmem : m.idMeal ∈ seen
    · have hmem2 : m.idMeal ∈ acc.map (fun x => x.idMeal) := (hseen _).mp hmem
      have hany : acc.any (fun x => x.idMeal == m.idMeal) = true := by
        rw [List.any_eq_true]
        rw [List.mem_map] at hmem2
        obtain ⟨x, hx, hxid⟩ := hmem2
        exact ⟨x, hx, by simp [hxid]⟩
      have hins : dedupInsert acc m = acc := by
        unfold dedupInsert
        rw [if_pos hany]
        have hrep : ∀ x ∈ acc, (if x.idMeal == m.idMeal then m else x) = x := by
          intro x hx
          by_cases hid : x.idMeal == m.idMeal
          · rw [if_pos hid]
            exact hall m (Or.inr (List.mem_cons_self m rest)) x (Or.inl hx)
              (beq_iff_eq.mp hid).symm
          · rw [if_neg hid]
        calc acc.map (fun x => if x.idMeal == m.idMeal then m else x)
            = acc.map id := List.map_congr_left (by intro x hx; rw [hrep x hx]; rfl)
          _ = acc := List.map_id acc
      have hall2 : ∀ a, (a ∈ acc ∨ a ∈ rest) → ∀ b, (b ∈ acc ∨ b ∈ rest) →
          a.idMeal = b.idMeal → a = b := by
        intro a ha b hb
        exact hall a (ha.imp id (List.mem_cons_of_mem m)) b
          (hb.imp id (List.mem_cons_of_mem m))
      rw [List.foldl_cons, hins, ih acc seen hseen hall2]
      simp only [firstWinsAux, hmem, if_true]
    · have hmem2 : m.idMeal ∉ acc.map (fun x => x.idMeal) :=
        fun hx => hmem ((hseen _).mpr hx)
      have hany : acc.any (fun x => x.idMeal == m.idMeal) = false := by
        rw [List.any_eq_false]
        intro x hx hbeq
        exact hmem2 (List.mem_map.mpr ⟨x, hx, beq_iff_eq.mp hbeq⟩)
      have hins : dedupInsert acc m = acc ++ [m] := by
        simp [dedupInsert, hany]
      have hseen2 : ∀ i, i ∈ (m.idMeal :: seen) ↔
          i ∈ (acc ++ [m]).map (fun x => x.idMeal) := by
        intro i
        simp [hseen i, or_comm]
      have hall2 : ∀ a, (a ∈ acc ++ [m] ∨ a ∈ rest) → ∀ b, (b ∈ acc ++ [m] ∨ b ∈ rest) →
          a.idMeal = b.idMeal → a = b := by
        have hlift : ∀ a, (a ∈ acc ++ [m] ∨ a ∈ rest) → (a ∈ acc ∨ a ∈ m :: rest) := by
          intro a ha
          rcases ha with ha | ha
          · rcases List.mem_append.mp ha with h1 | h1
            · exact Or.inl h1
            · rw [List.mem_singleton] at h1
              exact Or.inr (h1 ▸ List.mem_cons_self m rest)
          · exact Or.inr (List.mem_cons_of_mem m ha)
        intro a ha b hb
        exact hall a (hlift a ha) b (hlift b hb)
      rw [List.foldl_cons, hins, ih (acc ++ [m]) (m.idMeal :: seen) hseen2 hall2]
      simp only [firstWinsAux, hmem, if_false, List.append_assoc, List.singleton_append]

/-- C7 (amended): the retained entry for each id sits at the position of the
id's first occurrence, but carries the value of its last occurrence; whenever
all concatenated entries sharing an id are equal records — as in real runs,
where every copy comes from the same per-id lookup — this coincides with
first-occurrence-wins deduplication that alters no field values. -/
theorem c7_dedup_first_wins_on_consistent (l : List MealSummary)
    (h : ∀ a ∈ l, ∀ b ∈ l, a.idMeal = b.idMeal → a = b) :
    dedupById l = firstWinsDedup l := by
  have hall : ∀ a, (a ∈ ([] : List MealSummary) ∨ a ∈ l) →
      ∀ b, (b ∈ ([] : List MealSummary) ∨ b ∈ l) → a.idMeal = b.idMeal → a = b := by
    intro a ha b hb
    exact h a (ha.resolve_left (List.not_mem_nil a)) b (hb.resolve_left (List.not_mem_nil b))
  have := foldl_dedupInsert_firstWins l [] [] (by simp) hall
  simpa [dedupById, firstWinsDedup] using this

/-- C7 witness: the amended agreement theorem on a concrete concatenation in
which the meal with id 3 appears twice as the identical record. -/
theorem c7_dedup_first_wins_on_consistent_witness :
    dedupById [⟨"3", "Shared", "t3", some "Beef", some "British"⟩,
        ⟨"4", "Only Beef", "t4", some "Beef", some "French"⟩,
        ⟨"3", "Shared", "t3", some "Beef", some "British"⟩] =
      firstWinsDedup [⟨"3", "Shared", "t3", some "Beef", some "British"⟩,
        ⟨"4", "Only Beef", "t4", some "Beef", some "French"⟩,
        ⟨"3", "Shared", "t3", some "Beef", some "British"⟩] :=
  c7_dedup_first_wins_on_consistent _ (by decide)
